import Mathlib

/-!
Verification of the pattern-colorization extension's core logic.

The development shallowly embeds the TypeScript sources:
* `DecorationManager.findPatternRanges` / `isWordCharacter`
  (src/services/patternManager.ts, DecorationManager part) — the Match Finder;
* `PatternManager` CRUD operations (`addPattern`, `removePattern`,
  `updatePattern`, `togglePattern`, `clearPatterns`, `importPatterns`,
  `getNextColorIndex`) — the Pattern Store;
* the command-layer input validations from
  src/commands/patternCommands.ts (`validateInput` callbacks);
* the `PatternCommands` class (the third document bundled in
  src/README.md): its registered command list, the global jump handlers
  `jumpToNextHighlight` / `jumpToPreviousHighlight` with their candidate
  list `getHighlightRanges`, and the selected-pattern navigation
  (`getPatternAtCursor`, `navigateToNext/PreviousPatternOccurrence`).

Strings are modelled as `List Char`; offsets are `Nat`.  JavaScript's
`toLowerCase`/`trim`/`\w` are modelled on their ASCII fragments
(`Char.toLower`, `Char.isWhitespace`, `Char.isAlphanum`), which agree with
JavaScript on all ASCII text.  Match spans are `(start, stop)` offset pairs;
the editor's offset→(line, column) conversion is an order-preserving
bijection, so all ordering claims are stated on offsets.
-/

namespace PatternColorization

/-- Strings as lists of characters. -/
abbrev Str := List Char

/-- Mirrors `MAX_PATTERNS = 8` in src/constants/colors.ts. -/
def MAX_PATTERNS : Nat := 8

/-- Mirrors the names of `COLOR_PALETTE` in src/constants/colors.ts
(8 entries; only its length matters for slot assignment). -/
def COLOR_PALETTE : List String :=
  ["Soft Blue", "Soft Green", "Soft Yellow", "Soft Orange",
   "Soft Purple", "Soft Pink", "Soft Teal", "Soft Gray"]

/-- Mirrors the `Pattern` interface in src/models/pattern.ts.
`id` and `createdAt` are opaque in the source (timestamp/random string);
they are modelled as `Nat`. -/
structure Pattern where
  id : Nat
  text : Str
  colorIndex : Nat
  enabled : Bool
  createdAt : Nat
  description : Option Str
deriving DecidableEq, Repr

/-- Mirrors the `PatternConfig` interface in src/models/pattern.ts. -/
structure PatternConfig where
  caseSensitive : Bool
  wholeWord : Bool
  enabled : Bool
deriving DecidableEq, Repr

/-- ASCII fragment of JavaScript `String.prototype.toLowerCase`,
applied characterwise (`Char.toLower` lowers exactly `A`–`Z`). -/
def toLowerStr (s : Str) : Str := s.map Char.toLower

/-- ASCII fragment of JavaScript `String.prototype.trim`:
strip whitespace from both ends. -/
def trimStr (s : Str) : Str :=
  ((s.dropWhile Char.isWhitespace).reverse.dropWhile Char.isWhitespace).reverse

/-- Mirrors `DecorationManager.isWordCharacter` (patternManager.ts line 630):
`/\w/.test(char)`, i.e. ASCII letter, digit or underscore. -/
def isWordCharacter (c : Char) : Bool :=
  c.isAlphanum || c == '_'

/-- The occurrence test: `matchesAt doc pat i` holds when `pat` occurs in `doc` at offset `i`
(the substring of `doc` starting at `i` begins with `pat`). -/
def matchesAt (doc pat : Str) (i : Nat) : Bool :=
  (doc.drop i).take pat.length == pat

/-- JavaScript `documentText.indexOf(searchText, start)` for a non-empty
search string: the least offset `i` with `start ≤ i ≤ doc.length` at which
`pat` occurs, `none` when there is no such occurrence.  The candidate
offsets `start, start + 1, …, doc.length` are enumerated explicitly, which
keeps the search structurally recursive. -/
def indexOfFrom (doc pat : Str) (start : Nat) : Option Nat :=
  (List.range' start (doc.length + 1 - start)).find? (matchesAt doc pat)

/-- The whole-word acceptance test of `findPatternRanges`
(patternManager.ts lines 604–614): look up the characters just before and
just after the candidate occurrence, substituting a space `' '` when the
occurrence touches the start or end of the document, and accept unless
either neighbour is a word character. -/
def boundaryOk (doc pat : Str) (i : Nat) : Bool :=
  let beforeChar := if i > 0 then doc.getD (i - 1) ' ' else ' '
  let afterChar := if i + pat.length < doc.length
    then doc.getD (i + pat.length) ' ' else ' '
  !(isWordCharacter beforeChar || isWordCharacter afterChar)

/-- The `while (true)` scan of `DecorationManager.findPatternRanges`
(patternManager.ts lines 596–622), one call per loop entry with the current
`index`: find the next occurrence at or after `index`; when whole-word mode
rejects it, continue from `foundIndex + 1`; otherwise emit the span
`(foundIndex, foundIndex + pat.length)` and continue from `foundIndex + 1`. -/
def scanFromAux (doc pat : Str) (wholeWord : Bool) :
    Nat → Nat → List (Nat × Nat)
  | 0, _ => []
  | rem + 1, index =>
    match indexOfFrom doc pat index with
    | none => []
    | some foundIndex =>
      if wholeWord && !boundaryOk doc pat foundIndex then
        scanFromAux doc pat wholeWord rem (foundIndex + 1)
      else
        (foundIndex, foundIndex + pat.length) ::
          scanFromAux doc pat wholeWord rem (foundIndex + 1)

/-- The scan entered with current offset `index`: there are at most
`doc.length + 1 - index` further loop iterations (each iteration advances
`index` by at least one and `index` never exceeds `doc.length + 1`), so
running `scanFromAux` with that bound as fuel computes the loop exactly. -/
def scanFrom (doc pat : Str) (wholeWord : Bool) (index : Nat) :
    List (Nat × Nat) :=
  scanFromAux doc pat wholeWord (doc.length + 1 - index) index

/-- Mirrors `DecorationManager.findPatternRanges`
(patternManager.ts lines 586–625): normalize the document and the pattern
text to lower case when matching is case-insensitive, then run the scan
from offset 0.  Spans are `(start, stop)` character offsets. -/
def findPatternRanges (docText : Str) (pat : Pattern) (config : PatternConfig) :
    List (Nat × Nat) :=
  let searchText := if config.caseSensitive then pat.text
    else toLowerStr pat.text
  let documentText := if config.caseSensitive then docText
    else toLowerStr docText
  scanFrom documentText searchText config.wholeWord 0

/-! ### Characterization of the scan -/

/-- The acceptance test the scan applies at a candidate offset: the pattern
occurs there and, in whole-word mode, the boundary test passes. -/
def accepted (doc pat : Str) (wholeWord : Bool) (i : Nat) : Bool :=
  matchesAt doc pat i && (!wholeWord || boundaryOk doc pat i)

theorem find?_range'_some {p : Nat → Bool} :
    ∀ {n s k : Nat}, (List.range' s n).find? p = some k →
      s ≤ k ∧ k < s + n ∧ p k = true ∧ ∀ j, s ≤ j → j < k → p j = false := by
  intro n
  induction n with
  | zero =>
    intro s k h
    simp [List.range'] at h
  | succ n ih =>
    intro s k h
    rw [List.range'_succ] at h
    cases hps : p s with
    | true =>
      rw [List.find?_cons_of_pos _ hps] at h
      obtain rfl : s = k := Option.some.inj h
      exact ⟨le_refl _, by omega, hps, fun j h1 h2 => absurd h1 (by omega)⟩
    | false =>
      rw [List.find?_cons_of_neg _ (by simp [hps])] at h
      obtain ⟨h1, h2, h3, h4⟩ := ih h
      refine ⟨by omega, by omega, h3, fun j hj1 hj2 => ?_⟩
      rcases Nat.eq_or_lt_of_le hj1 with rfl | hlt
      · exact hps
      · exact h4 j hlt hj2

theorem find?_range'_none {p : Nat → Bool} {s n : Nat} :
    (List.range' s n).find? p = none ↔
      ∀ j, s ≤ j → j < s + n → p j = false := by
  rw [List.find?_eq_none]
  constructor
  · intro h j h1 h2
    have hj : j ∈ List.range' s n := List.mem_range'_1.mpr ⟨h1, h2⟩
    simpa using h j hj
  · intro h x hx
    rw [List.mem_range'_1] at hx
    simp [h x hx.1 hx.2]

theorem indexOfFrom_none_iff (doc pat : Str) (start : Nat) :
    indexOfFrom doc pat start = none ↔
      ∀ j, start ≤ j → j ≤ doc.length → matchesAt doc pat j = false := by
  unfold indexOfFrom
  rw [find?_range'_none]
  constructor
  · intro h j h1 h2
    exact h j h1 (by omega)
  · intro h j h1 h2
    exact h j h1 (by omega)

theorem indexOfFrom_some (doc pat : Str) (start k : Nat)
    (h : indexOfFrom doc pat start = some k) :
    start ≤ k ∧ k ≤ doc.length ∧ matchesAt doc pat k = true ∧
      ∀ j, start ≤ j → j < k → matchesAt doc pat j = false := by
  unfold indexOfFrom at h
  obtain ⟨h1, h2, h3, h4⟩ := find?_range'_some h
  exact ⟨h1, by omega, h3, h4⟩

/-- The scan from offset `index` (with sufficient fuel) emits exactly the
accepted candidate offsets in `[index, doc.length]`, in ascending order,
each paired with its end offset. -/
theorem scanFromAux_eq (doc pat : Str) (ww : Bool) :
    ∀ rem index, doc.length + 1 - index ≤ rem →
      scanFromAux doc pat ww rem index =
        ((List.range' index (doc.length + 1 - index)).filter
            (accepted doc pat ww)).map (fun i => (i, i + pat.length)) := by
  intro rem
  induction rem with
  | zero =>
    intro index h
    have h0 : doc.length + 1 - index = 0 := by omega
    rw [h0]
    simp [scanFromAux]
  | succ rem ih =>
    intro index h
    cases hfind : indexOfFrom doc pat index with
    | none =>
      have hnone := (indexOfFrom_none_iff doc pat index).mp hfind
      have hfilter : (List.range' index (doc.length + 1 - index)).filter
          (accepted doc pat ww) = [] := by
        rw [List.filter_eq_nil_iff]
        intro a ha
        rw [List.mem_range'_1] at ha
        simp [accepted, hnone a ha.1 (by omega)]
      simp [scanFromAux, hfind, hfilter]
    | some k =>
      obtain ⟨hik, hkd, hmk, hlt⟩ := indexOfFrom_some doc pat index k hfind
      have hsplit : List.range' index (doc.length + 1 - index) =
          List.range' index (k - index) ++ List.range' k (doc.length + 1 - k) := by
        have happ := List.range'_append index (k - index) (doc.length + 1 - k) 1
        have e1 : index + 1 * (k - index) = k := by omega
        have e2 : doc.length + 1 - k + (k - index) = doc.length + 1 - index := by
          omega
        rw [e1, e2] at happ
        exact happ.symm
      have hfilter1 : (List.range' index (k - index)).filter
          (accepted doc pat ww) = [] := by
        rw [List.filter_eq_nil_iff]
        intro a ha
        rw [List.mem_range'_1] at ha
        simp [accepted, hlt a ha.1 (by omega)]
      have hrange : List.range' k (doc.length + 1 - k) =
          k :: List.range' (k + 1) (doc.length - k) := by
        have e3 : doc.length + 1 - k = doc.length - k + 1 := by omega
        rw [e3, List.range'_succ]
      have e4 : doc.length + 1 - (k + 1) = doc.length - k := by omega
      by_cases hacc : accepted doc pat ww k = true
      · have hcond : (ww && !boundaryOk doc pat k) = false := by
          simp only [accepted, hmk, Bool.true_and] at hacc
          cases ww <;> simp_all
        rw [show scanFromAux doc pat ww (rem + 1) index =
            (k, k + pat.length) :: scanFromAux doc pat ww rem (k + 1) from by
          simp [scanFromAux, hfind, hcond]]
        rw [ih (k + 1) (by omega), hsplit, List.filter_append, hfilter1, hrange,
          List.filter_cons_of_pos hacc, e4]
        simp
      · have hcond : (ww && !boundaryOk doc pat k) = true := by
          simp only [accepted, hmk, Bool.true_and] at hacc
          cases ww <;> simp_all
        rw [show scanFromAux doc pat ww (rem + 1) index =
            scanFromAux doc pat ww rem (k + 1) from by
          simp [scanFromAux, hfind, hcond]]
        rw [ih (k + 1) (by omega), hsplit, List.filter_append, hfilter1, hrange,
          List.filter_cons_of_neg (by simp_all), e4]
        simp

/-- The full scan started at offset 0. -/
theorem scanFrom_eq (doc pat : Str) (ww : Bool) :
    scanFrom doc pat ww 0 =
      ((List.range (doc.length + 1)).filter (accepted doc pat ww)).map
        (fun i => (i, i + pat.length)) := by
  unfold scanFrom
  rw [scanFromAux_eq doc pat ww (doc.length + 1 - 0) 0 (le_refl _),
    List.range_eq_range']
  norm_num

/-- An occurrence of a non-empty pattern fits inside the document. -/
theorem matchesAt_add_le (doc pat : Str) (i : Nat)
    (h : matchesAt doc pat i = true) (hp : pat ≠ []) :
    i + pat.length ≤ doc.length := by
  unfold matchesAt at h
  have heq := eq_of_beq h
  have hlen := congrArg List.length heq
  simp only [List.length_take, List.length_drop] at hlen
  have hpl : 0 < pat.length := List.length_pos.mpr hp
  rw [Nat.min_def] at hlen
  split at hlen <;> omega

/-- Matching a non-empty pattern fails at the document's end offset. -/
theorem matchesAt_length (doc pat : Str) (hp : pat ≠ []) :
    matchesAt doc pat doc.length = false := by
  cases hm : matchesAt doc pat doc.length with
  | false => rfl
  | true =>
    have := matchesAt_add_le doc pat doc.length hm hp
    have hpl : 0 < pat.length := List.length_pos.mpr hp
    omega

/-! ### Concrete fixtures used by witnesses and counterexamples -/

/-- A pattern with the given text (id, color, timestamp are irrelevant to
matching). -/
def patOf (s : String) : Pattern := ⟨0, s.toList, 0, true, 0, none⟩

/-- Case-sensitive, not whole-word. -/
def cfgCS : PatternConfig := ⟨true, false, true⟩

/-- Case-sensitive, whole-word. -/
def cfgWW : PatternConfig := ⟨true, true, true⟩

/-! ### Claims about the Match Finder -/

/-- C1: with `caseSensitive = true` and `wholeWord = false`, `findMatches`
(`findPatternRanges`) returns exactly the occurrences of the pattern text
in the document found by the left-to-right scan that resumes at
`foundOffset + 1`: every offset at which the pattern occurs yields a span
`(i, i + |pat|)`, in strictly ascending start-offset order, so overlapping
occurrences each yield a separate span.  (Stated for non-empty pattern
text, which creation guarantees; on empty text the JavaScript loop does
not terminate.) -/
theorem claim_C1 (doc : Str) (pat : Pattern) (cfg : PatternConfig)
    (hcs : cfg.caseSensitive = true) (hww : cfg.wholeWord = false)
    (hp : pat.text ≠ []) :
    findPatternRanges doc pat cfg =
      ((List.range doc.length).filter (matchesAt doc pat.text)).map
        (fun i => (i, i + pat.text.length)) := by
  unfold findPatternRanges
  rw [hcs, hww]
  simp only [if_true]
  rw [scanFrom_eq]
  have haccf : accepted doc pat.text false = matchesAt doc pat.text :=
    funext fun i => by simp [accepted]
  rw [haccf, List.range_succ, List.filter_append,
    show (List.filter (matchesAt doc pat.text) [doc.length]) = [] from by
      simp [matchesAt_length doc pat.text hp]]
  simp

theorem claim_C1_witness :
    (patOf "aa").text ≠ ([] : Str) ∧
    findPatternRanges "aaa".toList (patOf "aa") cfgCS =
      ((List.range ("aaa".toList).length).filter
          (matchesAt "aaa".toList (patOf "aa").text)).map
        (fun i => (i, i + (patOf "aa").text.length)) :=
  ⟨by decide, claim_C1 "aaa".toList (patOf "aa") cfgCS rfl rfl (by decide)⟩

/-- A space is not a word character. -/
theorem isWordCharacter_space : isWordCharacter ' ' = false := by decide

/-- The whole-word boundary test, spelled out: the left neighbour is absent
or a non-word character, and the right neighbour is absent or a non-word
character. -/
theorem boundaryOk_iff (doc pat : Str) (i : Nat) :
    boundaryOk doc pat i = true ↔
      (i = 0 ∨ isWordCharacter (doc.getD (i - 1) ' ') = false) ∧
      (doc.length ≤ i + pat.length ∨
        isWordCharacter (doc.getD (i + pat.length) ' ') = false) := by
  simp only [boundaryOk, Bool.not_or, Bool.and_eq_true, Bool.not_eq_true']
  apply and_congr
  · by_cases h1 : i > 0
    · rw [if_pos h1]
      exact ⟨fun h => Or.inr h, fun h => h.resolve_left (by omega)⟩
    · rw [if_neg h1, isWordCharacter_space]
      exact ⟨fun _ => Or.inl (by omega), fun _ => rfl⟩
  · by_cases h2 : i + pat.length < doc.length
    · rw [if_pos h2]
      exact ⟨fun h => Or.inr h, fun h => h.resolve_left (by omega)⟩
    · rw [if_neg h2, isWordCharacter_space]
      exact ⟨fun _ => Or.inl (by omega), fun _ => rfl⟩

/-- C2: in whole-word mode a candidate occurrence (in the normalized
document/pattern texts `D`, `P`) is returned iff the pattern occurs there
and neither the character immediately before nor the one immediately after
is a word character, a missing neighbour at the start or end of the
document counting as a non-word boundary. -/
theorem claim_C2 (doc : Str) (pat : Pattern) (cfg : PatternConfig)
    (hww : cfg.wholeWord = true) (D P : Str)
    (hD : D = if cfg.caseSensitive then doc else toLowerStr doc)
    (hP : P = if cfg.caseSensitive then pat.text else toLowerStr pat.text)
    (hp : P ≠ []) (i j : Nat) :
    (i, j) ∈ findPatternRanges doc pat cfg ↔
      matchesAt D P i = true ∧ j = i + P.length ∧
        (i = 0 ∨ isWordCharacter (D.getD (i - 1) ' ') = false) ∧
        (D.length ≤ i + P.length ∨
          isWordCharacter (D.getD (i + P.length) ' ') = false) := by
  have hfpr : findPatternRanges doc pat cfg = scanFrom D P true 0 := by
    unfold findPatternRanges
    rw [hww, hD, hP]
  rw [hfpr, scanFrom_eq]
  constructor
  · intro hmem
    rw [List.mem_map] at hmem
    obtain ⟨a, ha, hfa⟩ := hmem
    rw [List.mem_filter] at ha
    obtain ⟨_, hacc⟩ := ha
    have h1 : a = i := congrArg Prod.fst hfa
    have h2 : a + P.length = j := congrArg Prod.snd hfa
    subst h1
    subst h2
    simp only [accepted, Bool.and_eq_true, Bool.false_or] at hacc
    obtain ⟨hm, hb⟩ := hacc
    obtain ⟨hb1, hb2⟩ := (boundaryOk_iff D P a).mp (by simpa using hb)
    exact ⟨hm, rfl, hb1, hb2⟩
  · rintro ⟨hm, rfl, hb1, hb2⟩
    rw [List.mem_map]
    refine ⟨i, ?_, rfl⟩
    rw [List.mem_filter, List.mem_range]
    have hile := matchesAt_add_le D P i hm hp
    have hpl : 0 < P.length := List.length_pos.mpr hp
    refine ⟨by omega, ?_⟩
    simp only [accepted, Bool.and_eq_true, Bool.false_or]
    exact ⟨hm, by simpa using (boundaryOk_iff D P i).mpr ⟨hb1, hb2⟩⟩

theorem claim_C2_witness :
    cfgWW.wholeWord = true ∧ "foo".toList ≠ ([] : Str) ∧
    (7, 10) ∈ findPatternRanges "foobar foo".toList (patOf "foo") cfgWW :=
  ⟨rfl, by decide,
    (claim_C2 "foobar foo".toList (patOf "foo") cfgWW rfl
      "foobar foo".toList "foo".toList rfl rfl (by decide) 7 10).mpr
      (by decide)⟩

/-- Every span the scan emits starts at or after the scan's current
offset. -/
theorem scanFromAux_le (doc pat : Str) (ww : Bool) :
    ∀ rem index s, s ∈ scanFromAux doc pat ww rem index → index ≤ s.1 := by
  intro rem
  induction rem with
  | zero =>
    intro index s hs
    simp [scanFromAux] at hs
  | succ rem ih =>
    intro index s hs
    cases hfind : indexOfFrom doc pat index with
    | none => simp [scanFromAux, hfind] at hs
    | some k =>
      simp only [scanFromAux, hfind] at hs
      obtain ⟨hik, -, -, -⟩ := indexOfFrom_some doc pat index k hfind
      by_cases hcond : (ww && !boundaryOk doc pat k) = true
      · rw [if_pos hcond] at hs
        have := ih (k + 1) s hs
        omega
      · rw [if_neg hcond] at hs
        rcases List.mem_cons.mp hs with rfl | hs'
        · exact hik
        · have := ih (k + 1) s hs'
          omega

/-- The spans the scan emits have strictly increasing start offsets. -/
theorem scanFromAux_pairwise (doc pat : Str) (ww : Bool) :
    ∀ rem index, List.Pairwise (fun a b : Nat × Nat => a.1 < b.1)
      (scanFromAux doc pat ww rem index) := by
  intro rem
  induction rem with
  | zero => intro index; simp [scanFromAux]
  | succ rem ih =>
    intro index
    cases hfind : indexOfFrom doc pat index with
    | none => simp [scanFromAux, hfind]
    | some k =>
      simp only [scanFromAux, hfind]
      by_cases hcond : (ww && !boundaryOk doc pat k) = true
      · rw [if_pos hcond]; exact ih (k + 1)
      · rw [if_neg hcond]
        refine List.Pairwise.cons (fun b hb => ?_) (ih (k + 1))
        have := scanFromAux_le doc pat ww rem (k + 1) b hb
        omega

/-- C3 (amended): for every document, pattern and config, the spans
returned for one pattern are strictly increasing in start offset; they
are, however, NOT always non-overlapping (see the counterexample). -/
theorem claim_C3_amended (doc : Str) (pat : Pattern) (cfg : PatternConfig) :
    List.Pairwise (fun a b : Nat × Nat => a.1 < b.1)
      (findPatternRanges doc pat cfg) := by
  unfold findPatternRanges scanFrom
  exact scanFromAux_pairwise _ _ _ _ _

/-- C3 counterexample: for document `"aaa"` and pattern `"aa"` the scan
returns the overlapping spans `(0, 2)` and `(1, 3)` — the first span ends
after the second one starts, refuting "each span ends at or before the
next span starts". -/
theorem claim_C3_counterexample :
    findPatternRanges "aaa".toList (patOf "aa") cfgCS = [(0, 2), (1, 3)] ∧
    ¬ List.Pairwise (fun a b : Nat × Nat => a.2 ≤ b.1)
      (findPatternRanges "aaa".toList (patOf "aa") cfgCS) := by
  constructor
  · decide
  · decide

/-- C4: case-insensitive matching equals case-sensitive matching on the
lowercased document and lowercased pattern text (the code normalizes both
texts before scanning). -/
theorem claim_C4 (doc : Str) (pat : Pattern) (ww en : Bool) :
    findPatternRanges doc pat ⟨false, ww, en⟩ =
      findPatternRanges (toLowerStr doc)
        { pat with text := toLowerStr pat.text } ⟨true, ww, en⟩ := by
  unfold findPatternRanges
  simp

/-! ### The Pattern Store (`PatternManager`, src/services/patternManager.ts)

Side effects of the source methods (event firing, `saveState`, error
message popups) carry no information relevant to the claims and are not
modelled; each method becomes a function from the store state (and the
otherwise-opaque `generateId()` / `Date.now()` results, passed as
arguments) to its result and the new state. -/

/-- The mutable state of `PatternManager` relevant to the claims:
the pattern list and the last assigned color index. -/
structure Store where
  patterns : List Pattern
  lastColorIndex : Nat
deriving DecidableEq, Repr

/-- Mirrors `PatternManager.getNextColorIndex` (lines 266–280): scan the
slots `0 … COLOR_PALETTE.length - 1` for the first one not used by any
current pattern; when every slot is in use, cycle to
`(lastColorIndex + 1) % COLOR_PALETTE.length`.  Returns the chosen slot
and the updated store (`lastColorIndex` becomes the returned slot in both
branches). -/
def getNextColorIndex (s : Store) : Nat × Store :=
  match (List.range COLOR_PALETTE.length).find?
      (fun i => !(s.patterns.map (fun p => p.colorIndex)).contains i) with
  | some i => (i, { s with lastColorIndex := i })
  | none =>
    let j := (s.lastColorIndex + 1) % COLOR_PALETTE.length
    (j, { s with lastColorIndex := j })

/-- Mirrors `PatternManager.addPattern` (lines 58–98): reject when the
store is full, when the text trims to the empty string, or when another
pattern's text equals the (untrimmed) text case-insensitively; otherwise
append a new enabled pattern with trimmed text and the next color slot.
`freshId` and `now` stand for `generateId()` and `Date.now()`. -/
def addPattern (s : Store) (text : Str) (description : Option Str)
    (freshId now : Nat) : Option Pattern × Store :=
  if MAX_PATTERNS ≤ s.patterns.length then (none, s)
  else if trimStr text == [] then (none, s)
  else if (s.patterns.find?
      (fun p => toLowerStr p.text == toLowerStr text)).isSome then (none, s)
  else
    let ci := (getNextColorIndex s).1
    let s' := (getNextColorIndex s).2
    let p : Pattern :=
      ⟨freshId, trimStr text, ci, true, now, description.map trimStr⟩
    (some p, { s' with patterns := s'.patterns ++ [p] })

/-- Remove the first pattern with the given id
(`findIndex` + `splice(index, 1)`). -/
def removeFirstById : List Pattern → Nat → List Pattern
  | [], _ => []
  | p :: rest, pid =>
    if p.id == pid then rest else p :: removeFirstById rest pid

/-- Mirrors `PatternManager.removePattern` (lines 103–119). -/
def removePattern (s : Store) (pid : Nat) : Bool × Store :=
  if (s.patterns.find? (fun p => p.id == pid)).isSome then
    (true, { s with patterns := removeFirstById s.patterns pid })
  else (false, s)

/-- A `Partial<Pattern>` update object as used by the source's callers:
absent fields leave the pattern unchanged (`Object.assign` semantics). -/
structure PatternUpdate where
  text : Option Str := none
  colorIndex : Option Nat := none
  enabled : Option Bool := none
  description : Option (Option Str) := none
deriving Repr

/-- The effect of `Object.assign(pattern, updates)`. -/
def applyUpdate (p : Pattern) (u : PatternUpdate) : Pattern :=
  { p with
    text := u.text.getD p.text
    colorIndex := u.colorIndex.getD p.colorIndex
    enabled := u.enabled.getD p.enabled
    description := u.description.getD p.description }

/-- Replace the first pattern with the given id by its updated version. -/
def updateFirstById : List Pattern → Nat → PatternUpdate → List Pattern
  | [], _, _ => []
  | p :: rest, pid, u =>
    if p.id == pid then applyUpdate p u :: rest
    else p :: updateFirstById rest pid u

/-- Mirrors `PatternManager.updatePattern` (lines 124–142): find the
pattern with the given id; when absent return `false`; otherwise apply the
updates — with no validation of any kind — and return `true`. -/
def updatePattern (s : Store) (pid : Nat) (u : PatternUpdate) : Bool × Store :=
  if (s.patterns.find? (fun p => p.id == pid)).isSome then
    (true, { s with patterns := updateFirstById s.patterns pid u })
  else (false, s)

/-- Flip `enabled` on the first pattern with the given id. -/
def toggleFirstById : List Pattern → Nat → List Pattern
  | [], _ => []
  | p :: rest, pid =>
    if p.id == pid then { p with enabled := !p.enabled } :: rest
    else p :: toggleFirstById rest pid

/-- Mirrors `PatternManager.togglePattern` (lines 147–162). -/
def togglePattern (s : Store) (pid : Nat) : Bool × Store :=
  if (s.patterns.find? (fun p => p.id == pid)).isSome then
    (true, { s with patterns := toggleFirstById s.patterns pid })
  else (false, s)

/-- Mirrors `PatternManager.clearPatterns` (lines 167–179). -/
def clearPatterns (s : Store) : Store :=
  if s.patterns.isEmpty then s else { patterns := [], lastColorIndex := 0 }

/-- One entry of an imported JSON array.  `text = none` models both a
missing `text` field and a non-string value; `text = some []` models the
empty string (falsy, so also skipped by the `data.text &&` guard). -/
structure ImportEntry where
  text : Option Str := none
  id : Option Nat := none
  colorIndex : Option Int := none
  enabled : Option Bool := none
  createdAt : Option Nat := none
  description : Option Str := none
deriving DecidableEq, Repr

/-- The `data.text && typeof data.text === "string"` guard of
`importPatterns` (line 210): yields the (untrimmed) text of an accepted
entry, `none` for a skipped one. -/
def validImportText (e : ImportEntry) : Option Str :=
  match e.text with
  | some t => if t == [] then none else some t
  | none => none

/-- Conversion of one accepted entry (lines 211–221): trim the text, clamp
`colorIndex` into `[0, COLOR_PALETTE.length - 1]` (a missing index
defaults to 0 via `data.colorIndex || 0`), `enabled` defaults to true
unless the field is literally `false`, `createdAt` defaults to now, and a
missing id is freshly generated. -/
def convertEntry (freshId now : Nat) (e : ImportEntry) (t : Str) : Pattern :=
  { id := e.id.getD freshId
    text := trimStr t
    colorIndex :=
      (min (max (e.colorIndex.getD 0) 0) ((COLOR_PALETTE.length : Int) - 1)).toNat
    enabled := e.enabled != some false
    createdAt := e.createdAt.getD now
    description := e.description }

/-- The `for (const data of patternsData)` loop of `importPatterns`
building `validPatterns`; `k` counts the processed entries so that each
`generateId()` call is distinct. -/
def convertEntries (freshIds : Nat → Nat) (now : Nat) :
    List ImportEntry → Nat → List Pattern
  | [], _ => []
  | e :: rest, k =>
    match validImportText e with
    | some t =>
      convertEntry (freshIds k) now e t :: convertEntries freshIds now rest (k + 1)
    | none => convertEntries freshIds now rest (k + 1)

/-- Mirrors `PatternManager.importPatterns` (lines 205–240): convert the
valid entries, truncate to `MAX_PATTERNS` (`slice(0, MAX_PATTERNS)`), and
replace the whole pattern list with the result. -/
def importPatterns (s : Store) (entries : List ImportEntry)
    (freshIds : Nat → Nat) (now : Nat) : Store :=
  { s with patterns := (convertEntries freshIds now entries 0).take MAX_PATTERNS }

/-- Mirrors the `validateInput` callback of the add-pattern input box
(src/commands/patternCommands.ts lines 66–87); `some message` rejects the
input, `none` accepts it. -/
def validateAddPatternInput (patterns : List Pattern) (value : Str) :
    Option String :=
  if trimStr value == [] then some "Pattern text cannot be empty"
  else if (trimStr value).length < 2 then
    some "Pattern must be at least 2 characters long"
  else if (patterns.find?
      (fun p => toLowerStr p.text == toLowerStr value)).isSome then
    some "Pattern already exists"
  else if 100 < value.length then
    some "Pattern text too long (max 100 characters)"
  else none

/-- Mirrors the `validateInput` callback of the edit-pattern input box
(src/commands/patternCommands.ts lines 637–654); the duplicate check
excludes the pattern being edited. -/
def validateEditPatternInput (patterns : List Pattern) (pid : Nat)
    (value : Str) : Option String :=
  if trimStr value == [] then some "Pattern text cannot be empty"
  else if 100 < value.length then
    some "Pattern text too long (max 100 characters)"
  else if (patterns.find?
      (fun p => p.id != pid && toLowerStr p.text == toLowerStr value)).isSome then
    some "Pattern already exists"
  else none

/-! ### Store fixtures -/

/-- An empty store. -/
def emptyStore : Store := ⟨[], 0⟩

/-- A pattern with id and color slot `i`. -/
def mkPat (i : Nat) (s : String) : Pattern := ⟨i, s.toList, i, true, 0, none⟩

/-- A full store: eight patterns occupying slots 0–7. -/
def store8 : Store :=
  ⟨[mkPat 0 "p0", mkPat 1 "p1", mkPat 2 "p2", mkPat 3 "p3",
    mkPat 4 "p4", mkPat 5 "p5", mkPat 6 "p6", mkPat 7 "p7"], 7⟩

/-- A two-pattern store. -/
def store2 : Store := ⟨[mkPat 0 "foo", mkPat 1 "bar"], 1⟩

/-! ### Length preservation of the list helpers -/

theorem removeFirstById_length_le (pid : Nat) :
    ∀ l : List Pattern, (removeFirstById l pid).length ≤ l.length := by
  intro l
  induction l with
  | nil => simp [removeFirstById]
  | cons p rest ih =>
    simp only [removeFirstById]
    by_cases h : (p.id == pid) = true
    · rw [if_pos h]; simp
    · rw [if_neg h]; simp only [List.length_cons]; omega

theorem updateFirstById_length (pid : Nat) (u : PatternUpdate) :
    ∀ l : List Pattern, (updateFirstById l pid u).length = l.length := by
  intro l
  induction l with
  | nil => simp [updateFirstById]
  | cons p rest ih =>
    simp only [updateFirstById]
    by_cases h : (p.id == pid) = true
    · rw [if_pos h]; simp
    · rw [if_neg h]; simp only [List.length_cons]; omega

theorem toggleFirstById_length (pid : Nat) :
    ∀ l : List Pattern, (toggleFirstById l pid).length = l.length := by
  intro l
  induction l with
  | nil => simp [toggleFirstById]
  | cons p rest ih =>
    simp only [toggleFirstById]
    by_cases h : (p.id == pid) = true
    · rw [if_pos h]; simp
    · rw [if_neg h]; simp only [List.length_cons]; omega

/-! ### Claims about the Pattern Store -/

/-- C6: the 8-pattern cap is an invariant — `addPattern` on a full store
returns null and leaves the store unchanged, `importPatterns` truncates to
at most 8 entries, and every store operation preserves
`patterns.length ≤ 8`. -/
theorem claim_C6 :
    (∀ (s : Store) (text : Str) (d : Option Str) (fid now : Nat),
      MAX_PATTERNS ≤ s.patterns.length → addPattern s text d fid now = (none, s)) ∧
    (∀ (s : Store) (entries : List ImportEntry) (f : Nat → Nat) (now : Nat),
      (importPatterns s entries f now).patterns.length ≤ MAX_PATTERNS) ∧
    (∀ s : Store, s.patterns.length ≤ MAX_PATTERNS →
      (∀ (text : Str) (d : Option Str) (fid now : Nat),
        (addPattern s text d fid now).2.patterns.length ≤ MAX_PATTERNS) ∧
      (∀ pid, (removePattern s pid).2.patterns.length ≤ MAX_PATTERNS) ∧
      (∀ pid u, (updatePattern s pid u).2.patterns.length ≤ MAX_PATTERNS) ∧
      (∀ pid, (togglePattern s pid).2.patterns.length ≤ MAX_PATTERNS) ∧
      (clearPatterns s).patterns.length ≤ MAX_PATTERNS) := by
  refine ⟨?_, ?_, ?_⟩
  · intro s text d fid now h
    unfold addPattern
    rw [if_pos h]
  · intro s entries f now
    unfold importPatterns
    simp only [List.length_take]
    exact min_le_left _ _
  · intro s hs
    refine ⟨?_, ?_, ?_, ?_, ?_⟩
    · intro text d fid now
      unfold addPattern
      split_ifs with h1 h2 h3
      · exact hs
      · exact hs
      · exact hs
      · simp only [getNextColorIndex, List.length_append, List.length_cons]
        cases hfind : (List.range COLOR_PALETTE.length).find?
            (fun i => !(s.patterns.map (fun p => p.colorIndex)).contains i) <;>
          simp [hfind] <;> omega
    · intro pid
      unfold removePattern
      split_ifs with h
      · have := removeFirstById_length_le pid s.patterns
        simpa using by omega
      · exact hs
    · intro pid u
      unfold updatePattern
      split_ifs with h
      · simpa [updateFirstById_length pid u s.patterns] using hs
      · exact hs
    · intro pid
      unfold togglePattern
      split_ifs with h
      · simpa [toggleFirstById_length pid s.patterns] using hs
      · exact hs
    · unfold clearPatterns
      split_ifs with h
      · exact hs
      · simp

theorem claim_C6_witness :
    MAX_PATTERNS ≤ store8.patterns.length ∧
    addPattern store8 "ninth".toList none 9 9 = (none, store8) ∧
    store8.patterns.length ≤ MAX_PATTERNS ∧
    (removePattern store8 3).2.patterns.length ≤ MAX_PATTERNS :=
  ⟨by decide,
   claim_C6.1 store8 "ninth".toList none 9 9 (by decide),
   by decide,
   (claim_C6.2.2 store8 (by decide)).2.1 3⟩

/-- The text update applied in the C7 counterexample. -/
def updFOO : PatternUpdate := { text := some "FOO".toList }

/-- C7 counterexample: on a store holding patterns "foo" and "bar",
`updatePattern` of the second pattern's text to "FOO" succeeds (returns
true) and leaves the store with two patterns whose texts are
case-insensitively equal — `updatePattern` performs no duplicate check. -/
theorem claim_C7_counterexample :
    (updatePattern store2 1 updFOO).1 = true ∧
    ¬ List.Pairwise (fun p q : Pattern => toLowerStr p.text ≠ toLowerStr q.text)
      ((updatePattern store2 1 updFOO).2.patterns) :=
  ⟨by decide, by decide⟩

/-- C7 (amended): case-insensitive text uniqueness is enforced at creation
— `addPattern` with a case-insensitive duplicate of an existing pattern's
text returns null and leaves the store unchanged — while on the update
path it is enforced only by the edit command's input validation, which
rejects a value that case-insensitively equals another pattern's text;
`updatePattern` itself performs no duplicate check. -/
theorem claim_C7_amended :
    (∀ (s : Store) (text : Str) (d : Option Str) (fid now : Nat),
      (∃ p ∈ s.patterns, toLowerStr p.text = toLowerStr text) →
      addPattern s text d fid now = (none, s)) ∧
    (∀ (patterns : List Pattern) (pid : Nat) (value : Str),
      (∃ p ∈ patterns, p.id ≠ pid ∧ toLowerStr p.text = toLowerStr value) →
      validateEditPatternInput patterns pid value ≠ none) := by
  constructor
  · intro s text d fid now h
    obtain ⟨p, hp, heq⟩ := h
    unfold addPattern
    split_ifs with h1 h2 h3
    · rfl
    · rfl
    · rfl
    · exact absurd ((@List.find?_isSome _ s.patterns
        (fun q => toLowerStr q.text == toLowerStr text)).mpr
          ⟨p, hp, beq_iff_eq.mpr heq⟩) h3
  · intro patterns pid value h
    obtain ⟨p, hp, hne, heq⟩ := h
    unfold validateEditPatternInput
    split_ifs with h1 h2 h3
    · simp
    · simp
    · simp
    · exact absurd ((@List.find?_isSome _ patterns
        (fun q => q.id != pid && (toLowerStr q.text == toLowerStr value))).mpr
          ⟨p, hp, by
            rw [Bool.and_eq_true]
            exact ⟨bne_iff_ne.mpr hne, beq_iff_eq.mpr heq⟩⟩) h3

theorem claim_C7_witness :
    addPattern store2 "FOO".toList none 5 5 = (none, store2) ∧
    validateEditPatternInput store2.patterns 1 "FOO".toList ≠ none :=
  ⟨claim_C7_amended.1 store2 "FOO".toList none 5 5
      ⟨mkPat 0 "foo", by decide, by decide⟩,
   claim_C7_amended.2 store2.patterns 1 "FOO".toList
      ⟨mkPat 0 "foo", by decide, by decide, by decide⟩⟩

/-- C8 counterexample: the one-character text "a" has trimmed length 1 < 2,
yet `addPattern` on an empty store accepts it — the result is a created
pattern, not null, and the store grows to one pattern. -/
theorem claim_C8_counterexample :
    (trimStr "a".toList).length < 2 ∧
    (addPattern emptyStore "a".toList none 1 1).1 =
      some ⟨1, "a".toList, 0, true, 1, none⟩ ∧
    (addPattern emptyStore "a".toList none 1 1).2.patterns.length = 1 := by
  refine ⟨by decide, by decide, by decide⟩

/-- C8 (amended): `addPattern` itself rejects exactly the texts that trim
to the empty string (returning null with the store unchanged); the
2-character minimum is enforced before `addPattern` is called, by the
add-pattern command's input validation, which rejects every value whose
trimmed length is below 2. -/
theorem claim_C8_amended :
    (∀ (s : Store) (text : Str) (d : Option Str) (fid now : Nat),
      trimStr text = [] → addPattern s text d fid now = (none, s)) ∧
    (∀ (patterns : List Pattern) (value : Str),
      (trimStr value).length < 2 → validateAddPatternInput patterns value ≠ none) := by
  constructor
  · intro s text d fid now h
    unfold addPattern
    split_ifs with h1 h2 h3
    · rfl
    · rfl
    · exact absurd (beq_iff_eq.mpr h) h2
    · exact absurd (beq_iff_eq.mpr h) h2
  · intro patterns value h
    unfold validateAddPatternInput
    split_ifs with h1
    · simp
    · simp

theorem claim_C8_witness :
    addPattern store2 "   ".toList none 5 5 = (none, store2) ∧
    validateAddPatternInput [] "a".toList ≠ none :=
  ⟨claim_C8_amended.1 store2 "   ".toList none 5 5 (by decide),
   claim_C8_amended.2 [] "a".toList (by decide)⟩

/-- The slot-availability test of `getNextColorIndex`, as a proposition:
slot `i` is free exactly when no current pattern uses it. -/
theorem slotFree_iff (l : List Pattern) (i : Nat) :
    (!((l.map (fun p => p.colorIndex)).contains i)) = true ↔
      ∀ p ∈ l, p.colorIndex ≠ i := by
  rw [Bool.not_eq_true']
  constructor
  · intro h p hp hpe
    have hmem : i ∈ l.map (fun p => p.colorIndex) :=
      List.mem_map.mpr ⟨p, hp, hpe⟩
    rw [← List.elem_iff] at hmem
    simp only [List.contains] at h
    rw [h] at hmem
    exact absurd hmem (by simp)
  · intro h
    rw [Bool.eq_false_iff]
    intro hc
    have hmem : i ∈ l.map (fun p => p.colorIndex) := List.elem_iff.mp hc
    obtain ⟨p, hp, hpe⟩ := List.mem_map.mp hmem
    exact h p hp hpe

/-- C9: color-slot assignment takes the lowest free slot in `[0, 8)`; when
every slot is used it cycles to `(lastColorIndex + 1) % 8`; in particular,
deleting the pattern that occupies slot 3 from a full store and adding a
new pattern assigns the new pattern slot 3. -/
theorem claim_C9 :
    (∀ (s : Store) (i : Nat), i < COLOR_PALETTE.length →
      (∀ p ∈ s.patterns, p.colorIndex ≠ i) →
      (∀ j, j < i → ∃ p ∈ s.patterns, p.colorIndex = j) →
      (getNextColorIndex s).1 = i) ∧
    (∀ s : Store,
      (∀ i, i < COLOR_PALETTE.length → ∃ p ∈ s.patterns, p.colorIndex = i) →
      (getNextColorIndex s).1 = (s.lastColorIndex + 1) % COLOR_PALETTE.length) ∧
    (Option.map (fun p => p.colorIndex)
        (addPattern (removePattern store8 3).2 "fresh".toList none 9 9).1 =
      some 3) := by
  refine ⟨?_, ?_, by decide⟩
  · intro s i hi hunused hbelow
    unfold getNextColorIndex
    cases hfind : (List.range COLOR_PALETTE.length).find?
        (fun i => !(s.patterns.map (fun p => p.colorIndex)).contains i) with
    | none =>
      exfalso
      have hnone := List.find?_eq_none.mp hfind i (List.mem_range.mpr hi)
      exact hnone ((slotFree_iff s.patterns i).mpr hunused)
    | some k =>
      rw [List.range_eq_range'] at hfind
      obtain ⟨-, hk8, hpk, hleast⟩ := find?_range'_some hfind
      rcases lt_trichotomy k i with hki | hki | hki
      · obtain ⟨p, hp, hpe⟩ := hbelow k hki
        have := (slotFree_iff s.patterns k).mp hpk p hp
        exact absurd hpe this
      · simpa using hki
      · have h2 := (slotFree_iff s.patterns i).mpr hunused
        rw [hleast i (Nat.zero_le i) hki] at h2
        exact absurd h2 (by simp)
  · intro s hall
    unfold getNextColorIndex
    have hfind : (List.range COLOR_PALETTE.length).find?
        (fun i => !(s.patterns.map (fun p => p.colorIndex)).contains i) = none := by
      rw [List.find?_eq_none]
      intro i hi hfree
      obtain ⟨p, hp, hpe⟩ := hall i (List.mem_range.mp hi)
      exact (slotFree_iff s.patterns i).mp hfree p hp hpe
    rw [hfind]

theorem claim_C9_witness :
    (getNextColorIndex store2).1 = 2 ∧
    (getNextColorIndex store8).1 = (store8.lastColorIndex + 1) % COLOR_PALETTE.length :=
  ⟨claim_C9.1 store2 2 (by decide) (by decide)
      (fun j hj => by interval_cases j <;> decide),
   claim_C9.2.1 store8 (fun i hi => by
      have h8 : i < 8 := by simpa [COLOR_PALETTE] using hi
      interval_cases i <;> decide)⟩

/-- The imported entries keep exactly the trimmed texts of the accepted
entries (no deduplication, order preserved). -/
theorem convertEntries_texts (f : Nat → Nat) (now : Nat) :
    ∀ (entries : List ImportEntry) (k : Nat),
      (convertEntries f now entries k).map (fun p => p.text) =
        (entries.filterMap validImportText).map trimStr := by
  intro entries
  induction entries with
  | nil => intro k; simp [convertEntries]
  | cons e rest ih =>
    intro k
    simp only [convertEntries, List.filterMap_cons]
    cases hv : validImportText e with
    | none => exact ih (k + 1)
    | some t => simp [convertEntry, ih (k + 1)]

/-- C10: `importPatterns` replaces the whole pattern list (its result does
not depend on the previous patterns), keeps exactly the trimmed texts of
the entries that pass the text guard — silently skipping entries whose
text is missing or empty, truncating to `MAX_PATTERNS`, and performing no
duplicate check — so importing two "TODO" entries yields two patterns with
identical text. -/
theorem claim_C10 :
    (∀ (s₁ s₂ : Store) (entries : List ImportEntry) (f : Nat → Nat) (now : Nat),
      (importPatterns s₁ entries f now).patterns =
        (importPatterns s₂ entries f now).patterns) ∧
    (∀ (s : Store) (entries : List ImportEntry) (f : Nat → Nat) (now : Nat),
      (importPatterns s entries f now).patterns.map (fun p => p.text) =
        ((entries.filterMap validImportText).map trimStr).take MAX_PATTERNS) ∧
    ((importPatterns emptyStore
        [⟨some "TODO".toList, none, none, none, none, none⟩,
         ⟨some "TODO".toList, none, none, none, none, none⟩]
        (fun k => k) 0).patterns.map (fun p => p.text) =
      ["TODO".toList, "TODO".toList]) := by
  refine ⟨?_, ?_, by decide⟩
  · intro s₁ s₂ entries f now
    rfl
  · intro s entries f now
    unfold importPatterns
    rw [List.map_take, convertEntries_texts]

/-! ### Navigator and command surface (`PatternCommands`)

The `PatternCommands` class — the third document bundled in
src/README.md — registers the extension's commands and implements the
Navigator: `jumpToNextHighlight` / `jumpToPreviousHighlight` for the
global jumps, `getHighlightRanges` for their candidate list,
`getPatternAtCursor` and `navigateToNext/PreviousPatternOccurrence` for
the selected-pattern-scoped jumps.  The class carries its own verbatim
copy of `findPatternRanges` / `isWordCharacter`, identical to
`DecorationManager`'s, so the embedding reuses `findPatternRanges`.
Cursor positions and span endpoints are compared through the editor's
order-preserving offset↔(line, column) bijection, so `start.isAfter`,
`end.isBefore` and the sort comparator are stated on offsets. -/

/-- Mirrors `PatternManager.getEnabledPatterns`
(patternManager.ts lines 44–46). -/
def getEnabledPatterns (s : Store) : List Pattern :=
  s.patterns.filter (fun p => p.enabled)

/-- Mirrors the `commandIds` array of `PatternCommands.registerCommands`
(bundled class, src/README.md): every entry is registered and routed to
its handler — in particular `jumpToNext` → `jumpToNextHighlight`,
`jumpToPrevious` → `jumpToPreviousHighlight`,
`jumpToNextSelectedPattern` → `jumpToNextSelectedPatternOccurrence`,
`jumpToPreviousSelectedPattern` → `jumpToPreviousSelectedPatternOccurrence`. -/
def commandIds : List String :=
  ["patternColorization.addPattern",
   "patternColorization.deletePattern",
   "patternColorization.clearPatterns",
   "patternColorization.refreshPatterns",
   "patternColorization.toggleHighlighting",
   "patternColorization.togglePattern",
   "patternColorization.editPattern",
   "patternColorization.addFromSelection",
   "patternColorization.importPatterns",
   "patternColorization.exportPatterns",
   "patternColorization.showStats",
   "patternColorization.jumpToNext",
   "patternColorization.jumpToPrevious",
   "patternColorization.jumpToNextSelectedPattern",
   "patternColorization.jumpToPreviousSelectedPattern",
   "patternColorization.changePatternColor"]

/-- Stable insertion by start offset: the new element goes before every
element with an equal or larger start. -/
def insertByStart (r : Nat × Nat) : List (Nat × Nat) → List (Nat × Nat)
  | [] => [r]
  | x :: xs => if x.1 < r.1 then x :: insertByStart r xs else r :: x :: xs

/-- The `ranges.sort((a, b) => startLine difference, then startColumn
difference)` call of `getHighlightRanges`: a stable sort by start
position, which by the offset bijection is a stable sort by start
offset (`Array.prototype.sort` guarantees exactly sortedness and
stability, realized here as insertion sort). -/
def sortByStart : List (Nat × Nat) → List (Nat × Nat)
  | [] => []
  | x :: xs => insertByStart x (sortByStart xs)

/-- Mirrors `PatternCommands.getHighlightRanges` (bundled class): when
`config.enabled` is false return no spans; otherwise collect
`findPatternRanges` of every enabled pattern, in pattern order, and sort
the concatenation by start position. -/
def getHighlightRanges (s : Store) (cfg : PatternConfig) (doc : Str) :
    List (Nat × Nat) :=
  if !cfg.enabled then []
  else
    sortByStart (((getEnabledPatterns s).map
      (fun p => findPatternRanges doc p cfg)).flatten)

/-- Mirrors `PatternCommands.jumpToNextHighlight` (bundled class):
return (do not navigate) when the candidate list is empty; otherwise
take the first highlight whose start is strictly after the cursor
(`highlight.start.isAfter(currentPosition)`), wrapping to
`highlights[0]` when there is none.  The result is the revealed span,
`none` when no navigation happens. -/
def jumpToNextHighlight (s : Store) (cfg : PatternConfig) (doc : Str)
    (cursor : Nat) : Option (Nat × Nat) :=
  let highlights := getHighlightRanges s cfg doc
  if highlights.length = 0 then none
  else
    match highlights.find? (fun h => decide (cursor < h.1)) with
    | some h => some h
    | none => highlights.head?

/-- Mirrors `PatternCommands.jumpToPreviousHighlight` (bundled class):
the backwards scan for the last highlight whose end is strictly before
the cursor (`highlights[i].end.isBefore(currentPosition)`), wrapping to
the last highlight overall. -/
def jumpToPreviousHighlight (s : Store) (cfg : PatternConfig) (doc : Str)
    (cursor : Nat) : Option (Nat × Nat) :=
  let highlights := getHighlightRanges s cfg doc
  if highlights.length = 0 then none
  else
    match highlights.reverse.find? (fun h => decide (h.2 < cursor)) with
    | some h => some h
    | none => highlights.getLast?

/-- Mirrors `PatternCommands.getPatternAtCursor` (bundled class): `none`
when highlighting is disabled or no pattern is enabled; otherwise the
first enabled pattern one of whose ranges contains the cursor
(`vscode.Range.contains` is inclusive at both ends). -/
def getPatternAtCursor (s : Store) (cfg : PatternConfig) (doc : Str)
    (cursor : Nat) : Option Pattern :=
  if !cfg.enabled || (getEnabledPatterns s).length = 0 then none
  else
    (getEnabledPatterns s).find? (fun p =>
      (findPatternRanges doc p cfg).any
        (fun r => decide (r.1 ≤ cursor) && decide (cursor ≤ r.2)))

/-- Mirrors `PatternCommands.navigateToNextPatternOccurrence` (bundled
class): on the single pattern's range list, show "No occurrences found"
and stop when it is empty; otherwise take the first range whose start is
strictly after the cursor, wrapping to `ranges[0]`.  The result is the
revealed span, `none` exactly in the no-occurrences case. -/
def navigateToNextPatternOccurrence (doc : Str) (pat : Pattern)
    (cfg : PatternConfig) (cursor : Nat) : Option (Nat × Nat) :=
  let ranges := findPatternRanges doc pat cfg
  if ranges.length = 0 then none
  else
    match ranges.find? (fun r => decide (cursor < r.1)) with
    | some r => some r
    | none => ranges.head?

/-- Mirrors `PatternCommands.navigateToPreviousPatternOccurrence`
(bundled class). -/
def navigateToPreviousPatternOccurrence (doc : Str) (pat : Pattern)
    (cfg : PatternConfig) (cursor : Nat) : Option (Nat × Nat) :=
  let ranges := findPatternRanges doc pat cfg
  if ranges.length = 0 then none
  else
    match ranges.reverse.find? (fun r => decide (r.2 < cursor)) with
    | some r => some r
    | none => ranges.getLast?

/-- Mirrors `PatternCommands.jumpToNextSelectedPatternOccurrence`
(bundled class): navigate within the ranges of the pattern under the
cursor; when none is detected, fall back to the first enabled pattern,
or stop ("No patterns available") when there is no enabled pattern. -/
def jumpToNextSelectedPatternOccurrence (s : Store) (cfg : PatternConfig)
    (doc : Str) (cursor : Nat) : Option (Nat × Nat) :=
  match getPatternAtCursor s cfg doc cursor with
  | some p => navigateToNextPatternOccurrence doc p cfg cursor
  | none =>
    match getEnabledPatterns s with
    | [] => none
    | p :: _ => navigateToNextPatternOccurrence doc p cfg cursor

/-- Mirrors `PatternCommands.jumpToPreviousSelectedPatternOccurrence`
(bundled class). -/
def jumpToPreviousSelectedPatternOccurrence (s : Store)
    (cfg : PatternConfig) (doc : Str) (cursor : Nat) : Option (Nat × Nat) :=
  match getPatternAtCursor s cfg doc cursor with
  | some p => navigateToPreviousPatternOccurrence doc p cfg cursor
  | none =>
    match getEnabledPatterns s with
    | [] => none
    | p :: _ => navigateToPreviousPatternOccurrence doc p cfg cursor

/-! ### The find-or-wrap selection shared by the jump handlers -/

theorem findWrapNone_iff (L : List (Nat × Nat)) (c : Nat) :
    (if L.length = 0 then (none : Option (Nat × Nat))
     else
       match L.find? (fun h => decide (c < h.1)) with
       | some h => some h
       | none => L.head?) = none ↔ L = [] := by
  cases L with
  | nil => simp
  | cons a t =>
    rw [if_neg (by simp)]
    cases hf : (a :: t).find? (fun h => decide (c < h.1)) with
    | some h => simp
    | none => simp

theorem findWrap_strict (L l₁ l₂ : List (Nat × Nat)) (sp : Nat × Nat)
    (c : Nat) (hL : L = l₁ ++ sp :: l₂) (hc : c < sp.1)
    (hl : ∀ t ∈ l₁, ¬ c < t.1) :
    (if L.length = 0 then (none : Option (Nat × Nat))
     else
       match L.find? (fun h => decide (c < h.1)) with
       | some h => some h
       | none => L.head?) = some sp := by
  subst hL
  rw [if_neg (by simp)]
  rw [List.find?_append,
    List.find?_eq_none.mpr (fun t ht => by simpa using hl t ht),
    List.find?_cons_of_pos _ (by simpa using hc)]
  rfl

theorem findWrap_wrap (L : List (Nat × Nat)) (c : Nat)
    (h : ∀ t ∈ L, ¬ c < t.1) :
    (if L.length = 0 then (none : Option (Nat × Nat))
     else
       match L.find? (fun h => decide (c < h.1)) with
       | some h => some h
       | none => L.head?) = L.head? := by
  cases L with
  | nil => simp
  | cons a t =>
    rw [if_neg (by simp)]
    rw [List.find?_eq_none.mpr (fun x hx => by simpa using h x hx)]

/-! ### Sortedness of the candidate list -/

theorem insertByStart_mem (r x : Nat × Nat) (l : List (Nat × Nat))
    (hx : x ∈ insertByStart r l) : x = r ∨ x ∈ l := by
  induction l with
  | nil => simpa [insertByStart] using hx
  | cons a t ih =>
    simp only [insertByStart] at hx
    by_cases hc : a.1 < r.1
    · rw [if_pos hc] at hx
      rcases List.mem_cons.mp hx with rfl | hx'
      · exact Or.inr (List.mem_cons_self _ _)
      · rcases ih hx' with h | h
        · exact Or.inl h
        · exact Or.inr (List.mem_cons_of_mem _ h)
    · rw [if_neg hc] at hx
      rcases List.mem_cons.mp hx with rfl | hx'
      · exact Or.inl rfl
      · exact Or.inr hx'

theorem insertByStart_pairwise (r : Nat × Nat) (l : List (Nat × Nat))
    (h : List.Pairwise (fun a b : Nat × Nat => a.1 ≤ b.1) l) :
    List.Pairwise (fun a b : Nat × Nat => a.1 ≤ b.1) (insertByStart r l) := by
  induction l with
  | nil => simp [insertByStart]
  | cons a t ih =>
    simp only [insertByStart]
    rcases List.pairwise_cons.mp h with ⟨ha, ht⟩
    by_cases hc : a.1 < r.1
    · rw [if_pos hc]
      refine List.pairwise_cons.mpr ⟨?_, ih ht⟩
      intro b hb
      rcases insertByStart_mem r b t hb with rfl | hb'
      · omega
      · exact ha b hb'
    · rw [if_neg hc]
      refine List.pairwise_cons.mpr ⟨?_, h⟩
      intro b hb
      rcases List.mem_cons.mp hb with rfl | hb'
      · omega
      · have := ha b hb'
        omega

theorem sortByStart_pairwise (l : List (Nat × Nat)) :
    List.Pairwise (fun a b : Nat × Nat => a.1 ≤ b.1) (sortByStart l) := by
  induction l with
  | nil => simp [sortByStart]
  | cons a t ih => exact insertByStart_pairwise a _ ih

/-- C5: the registered command surface includes the global and
selected-pattern-scoped jump-next/jump-previous entry points, and the
jump-next handlers — `jumpToNextHighlight` on the all-patterns candidate
list and `navigateToNextPatternOccurrence` on one pattern's list —
return the first span whose start is strictly after the cursor, wrap to
the first span overall when no such span exists, and come back empty
("no matches") exactly when the candidate span list is empty; the
all-patterns candidate list is in ascending start order, so first in
list order is first in document order. -/
theorem claim_C5 :
    ("patternColorization.jumpToNext" ∈ commandIds ∧
     "patternColorization.jumpToPrevious" ∈ commandIds ∧
     "patternColorization.jumpToNextSelectedPattern" ∈ commandIds ∧
     "patternColorization.jumpToPreviousSelectedPattern" ∈ commandIds) ∧
    (∀ (s : Store) (cfg : PatternConfig) (doc : Str) (cursor : Nat),
      (jumpToNextHighlight s cfg doc cursor = none ↔
        getHighlightRanges s cfg doc = []) ∧
      (∀ (l₁ l₂ : List (Nat × Nat)) (sp : Nat × Nat),
        getHighlightRanges s cfg doc = l₁ ++ sp :: l₂ → cursor < sp.1 →
        (∀ t ∈ l₁, ¬ cursor < t.1) →
        jumpToNextHighlight s cfg doc cursor = some sp) ∧
      ((∀ t ∈ getHighlightRanges s cfg doc, ¬ cursor < t.1) →
        jumpToNextHighlight s cfg doc cursor =
          (getHighlightRanges s cfg doc).head?)) ∧
    (∀ (s : Store) (cfg : PatternConfig) (doc : Str),
      List.Pairwise (fun a b : Nat × Nat => a.1 ≤ b.1)
        (getHighlightRanges s cfg doc)) ∧
    (∀ (doc : Str) (pat : Pattern) (cfg : PatternConfig) (cursor : Nat),
      (navigateToNextPatternOccurrence doc pat cfg cursor = none ↔
        findPatternRanges doc pat cfg = []) ∧
      (∀ (l₁ l₂ : List (Nat × Nat)) (sp : Nat × Nat),
        findPatternRanges doc pat cfg = l₁ ++ sp :: l₂ → cursor < sp.1 →
        (∀ t ∈ l₁, ¬ cursor < t.1) →
        navigateToNextPatternOccurrence doc pat cfg cursor = some sp) ∧
      ((∀ t ∈ findPatternRanges doc pat cfg, ¬ cursor < t.1) →
        navigateToNextPatternOccurrence doc pat cfg cursor =
          (findPatternRanges doc pat cfg).head?)) := by
  refine ⟨⟨by decide, by decide, by decide, by decide⟩, ?_, ?_, ?_⟩
  · intro s cfg doc cursor
    refine ⟨?_, ?_, ?_⟩
    · exact findWrapNone_iff (getHighlightRanges s cfg doc) cursor
    · intro l₁ l₂ sp hL hc hl
      exact findWrap_strict (getHighlightRanges s cfg doc) l₁ l₂ sp cursor
        hL hc hl
    · intro h
      exact findWrap_wrap (getHighlightRanges s cfg doc) cursor h
  · intro s cfg doc
    unfold getHighlightRanges
    by_cases h : (!cfg.enabled) = true
    · rw [if_pos h]
      exact List.Pairwise.nil
    · rw [if_neg h]
      exact sortByStart_pairwise _
  · intro doc pat cfg cursor
    refine ⟨?_, ?_, ?_⟩
    · exact findWrapNone_iff (findPatternRanges doc pat cfg) cursor
    · intro l₁ l₂ sp hL hc hl
      exact findWrap_strict (findPatternRanges doc pat cfg) l₁ l₂ sp cursor
        hL hc hl
    · intro h
      exact findWrap_wrap (findPatternRanges doc pat cfg) cursor h

theorem claim_C5_witness :
    jumpToNextHighlight store2 cfgCS "foo bar foo".toList 5 = some (8, 11) ∧
    navigateToNextPatternOccurrence "foo bar foo".toList (mkPat 0 "foo")
      cfgCS 0 = some (8, 11) ∧
    jumpToNextHighlight store2 cfgCS "foo bar foo".toList 20 =
      (getHighlightRanges store2 cfgCS "foo bar foo".toList).head? ∧
    jumpToNextHighlight emptyStore cfgCS "foo bar foo".toList 0 = none :=
  ⟨(claim_C5.2.1 store2 cfgCS "foo bar foo".toList 5).2.1
      [(0, 3), (4, 7)] [] (8, 11) (by decide) (by decide) (by decide),
   (claim_C5.2.2.2 "foo bar foo".toList (mkPat 0 "foo") cfgCS 0).2.1
      [(0, 3)] [] (8, 11) (by decide) (by decide) (by decide),
   (claim_C5.2.1 store2 cfgCS "foo bar foo".toList 20).2.2
      (by decide),
   (claim_C5.2.1 emptyStore cfgCS "foo bar foo".toList 0).1.mpr
      (by decide)⟩

end PatternColorization
